import Mathlib

/-!
Verification of the appointment-optimizer capacity/utilization/slot-ranking
engine.  The development shallowly embeds the two variants of the engine
(`appointment_optimizer_streamlit.py`, called variant 1 below, and
`appointment_optimizer_streamlit_new.py`, called variant 2): timestamps are
integers (seconds since the epoch), dates are integer day indexes
(floor-division of the start timestamp by 86400, as `datetime.date()`
computes), and durations are exact rationals (minutes, possibly fractional or
negative, as `total_seconds()/60` produces).  The wall-clock date and the
holiday calendar are injected as parameters.
-/

namespace ApptOpt

/-- CLINIC_HOURS = 9 (8 AM to 5 PM). -/
def CLINIC_HOURS : ℕ := 9

/-- MINUTES_PER_HOUR = 60. -/
def MINUTES_PER_HOUR : ℕ := 60

/-- Clinic opening time (8:00 AM) as minutes after midnight. -/
def CLINIC_START_MIN : ℚ := 8 * 60

/-- Clinic closing time (5:00 PM) as minutes after midnight; only variant 1
declares `CLINIC_END`. -/
def CLINIC_END_MIN : ℚ := 17 * 60

/-- OPTIMIZATION_WINDOW_DAYS = 30 (variant 1 only). -/
def OPTIMIZATION_WINDOW_DAYS : Int := 30

/-- Seconds per day, used to turn a start timestamp into its service date. -/
def SECONDS_PER_DAY : Int := 86400

/-- One raw appointment record as fetched from the reporting API.  Fields that
can be null in the source data are `Option`s; the timestamps are seconds since
the epoch. -/
structure RawRecord where
  location : Option String
  chairId : Option Int
  medName : Option String
  status : String
  startTime : Option Int
  endTime : Option Int
deriving DecidableEq, Repr

/-- One row surviving `preprocess`: the columns the source selects after
`dropna()`.  `duration` is `(end - start)/60` minutes (a rational, possibly
negative); `date` is the day index of the start timestamp. -/
structure ApptRow where
  location : String
  chairId : Int
  medName : String
  duration : ℚ
  date : Int
deriving DecidableEq, Repr

/-- Embedding of `preprocess` restricted to a single record: the status
filter, the duration and service-date computations, the date-window filter
(`Original_Date >= cutoff`; variant 1 passes `today + 30`, variant 2 passes
`today`), the holiday filter, and the `dropna()` over the selected columns
(which requires every field, in particular both timestamps, to be present).
The source applies these as successive dataframe filters; per record the
surviving set is the same. -/
def preprocessRecord (cutoff : Int) (isHoliday : Int → Bool) (r : RawRecord) :
    Option ApptRow :=
  if r.status = "Complete" ∨ r.status = "Active" then
    match r.startTime, r.endTime, r.location, r.chairId, r.medName with
    | some s, some e, some loc, some ch, some med =>
      if Int.fdiv s SECONDS_PER_DAY ≥ cutoff ∧
          isHoliday (Int.fdiv s SECONDS_PER_DAY) = false then
        some { location := loc, chairId := ch, medName := med,
               duration := ((e : ℚ) - (s : ℚ)) / 60,
               date := Int.fdiv s SECONDS_PER_DAY }
      else none
    | _, _, _, _, _ => none
  else none

/-- Embedding of `preprocess` on a whole raw record set. -/
def preprocess (cutoff : Int) (isHoliday : Int → Bool) (rs : List RawRecord) :
    List ApptRow :=
  rs.filterMap (preprocessRecord cutoff isHoliday)

/-- Number of distinct chair ids appearing anywhere in the normalized data of
one location (`groupby("locations.name")["appointments.chair_id"].nunique()`). -/
def locationChairs (rows : List ApptRow) (loc : String) : ℕ :=
  (((rows.filter fun r => decide (r.location = loc)).map fun r => r.chairId).dedup).length

/-- Embedding of `calculate_capacity`: the per-location dictionary
`{loc: chairs * CLINIC_HOURS * MINUTES_PER_HOUR}`. -/
def calculate_capacity (rows : List ApptRow) : List (String × ℚ) :=
  ((rows.map fun r => r.location).dedup).map fun loc =>
    (loc, ((locationChairs rows loc * CLINIC_HOURS * MINUTES_PER_HOUR : ℕ) : ℚ))

/-- Dictionary lookup used for `util["locations.name"].map(capacity_map)`. -/
def lookupCap : List (String × ℚ) → String → Option ℚ
  | [], _ => none
  | (l, v) :: rest, loc => if l = loc then some v else lookupCap rest loc

/-- Aggregation key of `calculate_utilization`: (location, service date). -/
abbrev GKey := String × Int

/-- Add one appointment's duration to the running per-key totals, the way a
groupby-sum accumulates a row. -/
def addToGroups : List (GKey × ℚ) → GKey → ℚ → List (GKey × ℚ)
  | [], k, d => [(k, d)]
  | (k0, s) :: rest, k, d =>
    if k0 = k then (k0, s + d) :: rest else (k0, s) :: addToGroups rest k d

/-- One step of the groupby-sum fold. -/
def groupStep (g : List (GKey × ℚ)) (r : ApptRow) : List (GKey × ℚ) :=
  addToGroups g (r.location, r.date) r.duration

/-- Embedding of `groupby(["locations.name", "Original_Date"]).agg(Total_Minutes=
("Duration", "sum"))`: per-key summed durations.  (pandas emits the groups
sorted by key; the order is irrelevant here because the ranking step re-sorts,
and every per-claim statement is order-insensitive over this table.) -/
def groupConsumed (rows : List ApptRow) : List (GKey × ℚ) :=
  rows.foldl groupStep []

/-- One row of the utilization table produced by `calculate_utilization`. -/
structure UtilRow where
  location : String
  date : Int
  totalMinutes : ℚ
  availableMinutes : ℚ
  remainingMinutes : ℚ
deriving DecidableEq, Repr

/-- Build one utilization row from a grouped (key, consumed) pair:
`Available_Minutes` from the capacity dictionary, `Remaining_Minutes =
(available - consumed).clip(lower=0)`. -/
def mkUtilRow (rows : List ApptRow) (kv : GKey × ℚ) : UtilRow :=
  let av := (lookupCap (calculate_capacity rows) kv.1.1).getD 0
  { location := kv.1.1, date := kv.1.2, totalMinutes := kv.2,
    availableMinutes := av, remainingMinutes := max (av - kv.2) 0 }

/-- Embedding of `calculate_utilization` (identical in both variants). -/
def calculate_utilization (rows : List ApptRow) : List UtilRow :=
  (groupConsumed rows).map (mkUtilRow rows)

/-- Total value stored for key `k` in a grouped table (used to state the
aggregation lemmas). -/
def keyTotal (g : List (GKey × ℚ)) (k : GKey) : ℚ :=
  ((g.filter fun p => decide (p.1 = k)).map fun p => p.2).sum

/-- Time-of-day of an instant given in minutes after midnight of its day:
reduction modulo 24 hours, because `datetime.combine(date, 8:00) + timedelta`
rolls into an adjacent day when the offset leaves [0, 24h) and `.time()`
keeps only the clock part of the rolled date. -/
def timeOfDay (x : ℚ) : ℚ := x - 1440 * ((Int.floor (x / 1440) : ℤ) : ℚ)

/-- Comparison key of the string `strftime("%I:%M %p")`: the 12-hour format is
fixed-width, so lexicographic string order is exactly the lexicographic order
on (hour on the 12-hour clock, minute, meridiem with AM < PM); `strftime`
truncates sub-minute parts and shows the clock time of the (possibly
rolled-over) datetime, i.e. the instant reduced modulo 24 h. -/
def timeKey (t : ℚ) : ℕ × ℕ × Bool :=
  let m : ℕ := (Int.floor (timeOfDay t)).toNat
  let h24 : ℕ := m / 60
  (if h24 % 12 = 0 then 12 else h24 % 12, m % 60, decide (12 ≤ h24))

/-- One candidate slot row of variant 1's `get_optimal_times` after the
projected-time columns are added (`nextAvailMin` is the exact
`Next_Available_Time` instant in minutes after midnight; `displayKey` is the
comparison key of its formatted string). -/
structure Slot1 where
  date : Int
  totalMinutes : ℚ
  availableMinutes : ℚ
  remainingMinutes : ℚ
  nextAvailMin : ℚ
  displayKey : ℕ × ℕ × Bool
deriving DecidableEq, Repr

/-- Variant 1's per-day slot computation: `Utilization_Ratio =
(Total/Available).clip(upper=1)` (clipped above only — a negative ratio stays
negative), `Next_Start_Minute = ratio * 540`, `next_time = combine(date, 8:00)
+ Next_Start_Minute`, replaced by 5:00 PM when `next_time.time()` — the
wrapped clock time of the possibly rolled-over datetime — exceeds
`CLINIC_END`.  `nextAvailMin` is the clock time the row displays, in minutes
after midnight. -/
def mkSlot1 (u : UtilRow) : Slot1 :=
  let rClip : ℚ := min (u.totalMinutes / u.availableMinutes) 1
  let t : ℚ := CLINIC_START_MIN + rClip * ((CLINIC_HOURS * 60 : ℕ) : ℚ)
  let tod : ℚ := timeOfDay t
  let tClamped : ℚ := if CLINIC_END_MIN < tod then CLINIC_END_MIN else tod
  { date := u.date, totalMinutes := u.totalMinutes,
    availableMinutes := u.availableMinutes,
    remainingMinutes := u.remainingMinutes,
    nextAvailMin := tClamped, displayKey := timeKey tClamped }

/-- Sort key of variant 1: `sort_values(by=["Original_Date",
"Next_Available_Time"])` where `Next_Available_Time` is the formatted string. -/
def sortKey1 (s : Slot1) : Int ×ₗ (ℕ ×ₗ (ℕ ×ₗ Bool)) :=
  toLex (s.date, toLex (s.displayKey.1, toLex (s.displayKey.2.1, s.displayKey.2.2)))

/-- Ordering relation of variant 1's sort. -/
def slotLe1 (a b : Slot1) : Prop := sortKey1 a ≤ sortKey1 b

instance : DecidableRel slotLe1 :=
  fun a b => inferInstanceAs (Decidable (sortKey1 a ≤ sortKey1 b))

/-- Result of variant 1's ranking: the returned rows plus the `st.warning`
"no available appointment slots" signal that accompanies the empty result. -/
structure RankResult1 where
  slots : List Slot1
  noCapacity : Bool
deriving DecidableEq, Repr

/-- The days surviving variant 1's ranking filter: location match, date at
least 30 days ahead of `today`, not a holiday, `Remaining_Minutes >=
duration`. -/
def qualifiedDays1 (rows : List ApptRow) (loc : String) (dur : ℚ) (today : Int)
    (isHoliday : Int → Bool) : List UtilRow :=
  (calculate_utilization rows).filter fun u =>
    decide (u.location = loc ∧ u.date ≥ today + OPTIMIZATION_WINDOW_DAYS ∧
      isHoliday u.date = false ∧ u.remainingMinutes ≥ dur)

/-- Embedding of variant 1's `get_optimal_times`. -/
def getOptimalTimes1 (rows : List ApptRow) (loc : String) (dur : ℚ) (today : Int)
    (isHoliday : Int → Bool) : RankResult1 :=
  let qual := qualifiedDays1 rows loc dur today isHoliday
  if qual.isEmpty then { slots := [], noCapacity := true }
  else
    { slots := (List.insertionSort slotLe1 (qual.map mkSlot1)).take 3,
      noCapacity := false }

/-- One candidate slot row of variant 2's `get_optimal_times`:
`Next_Available_Time` there is a `datetime.time` value, stored here as its
minutes after midnight (`timeMin`). -/
structure Slot2 where
  date : Int
  totalMinutes : ℚ
  availableMinutes : ℚ
  remainingMinutes : ℚ
  timeMin : ℚ
deriving DecidableEq, Repr

/-- Variant 2's per-day slot computation: `Next_Start_Minute =
Available_Minutes - Remaining_Minutes`, `Next_Available_Time =
(combine(date, 8:00) + Next_Start_Minute).time()` — no clamp at closing. -/
def mkSlot2 (u : UtilRow) : Slot2 :=
  { date := u.date, totalMinutes := u.totalMinutes,
    availableMinutes := u.availableMinutes,
    remainingMinutes := u.remainingMinutes,
    timeMin := timeOfDay (CLINIC_START_MIN + (u.availableMinutes - u.remainingMinutes)) }

/-- Sort key of variant 2: date, then the `datetime.time` value (time values
compare chronologically). -/
def sortKey2 (s : Slot2) : Int ×ₗ ℚ := toLex (s.date, s.timeMin)

/-- Ordering relation of variant 2's sort. -/
def slotLe2 (a b : Slot2) : Prop := sortKey2 a ≤ sortKey2 b

instance : DecidableRel slotLe2 :=
  fun a b => inferInstanceAs (Decidable (sortKey2 a ≤ sortKey2 b))

/-- Result of variant 2's ranking, with the same empty-result signal. -/
structure RankResult2 where
  slots : List Slot2
  noCapacity : Bool
deriving DecidableEq, Repr

/-- The days surviving variant 2's ranking filter: location match, date at or
after `today`, not a holiday, `Remaining_Minutes >= duration`. -/
def qualifiedDays2 (rows : List ApptRow) (loc : String) (dur : ℚ) (today : Int)
    (isHoliday : Int → Bool) : List UtilRow :=
  (calculate_utilization rows).filter fun u =>
    decide (u.location = loc ∧ u.date ≥ today ∧
      isHoliday u.date = false ∧ u.remainingMinutes ≥ dur)

/-- Embedding of variant 2's `get_optimal_times`. -/
def getOptimalTimes2 (rows : List ApptRow) (loc : String) (dur : ℚ) (today : Int)
    (isHoliday : Int → Bool) : RankResult2 :=
  let qual := qualifiedDays2 rows loc dur today isHoliday
  if qual.isEmpty then { slots := [], noCapacity := true }
  else
    { slots := (List.insertionSort slotLe2 (qual.map mkSlot2)).take 3,
      noCapacity := false }

/-- One exported row of `export_rebalanced_assigned` (variant 1 only): the
original appointment together with its assigned date and `Days_Moved`. -/
structure RebalRow where
  appt : ApptRow
  assignedDate : Int
  daysMoved : Int
deriving DecidableEq, Repr

/-- Embedding of `export_rebalanced_assigned`: with an empty optimized table
it only warns and exports nothing (`none`); otherwise every appointment row
receives `optimized_df.iloc[0]["Original_Date"]` as its assigned date. -/
def export_rebalanced_assigned (rows : List ApptRow) (optimized : List Slot1) :
    Option (List RebalRow) :=
  match optimized with
  | [] => none
  | s :: _ =>
    some (rows.map fun r =>
      { appt := r, assignedDate := s.date, daysMoved := s.date - r.date })

/-- Total duration the export assigns to one day. -/
def assignedTotal (out : List RebalRow) (d : Int) : ℚ :=
  ((out.filter fun x => decide (x.assignedDate = d)).map fun x => x.appt.duration).sum

/-- A holiday predicate recognizing no holidays (used in concrete scenarios). -/
def noHolidays : Int → Bool := fun _ => false

/-! Lemmas about the groupby-sum aggregation. -/

lemma keyTotal_nil (k : GKey) : keyTotal [] k = 0 := rfl

lemma keyTotal_cons (k0 : GKey) (s : ℚ) (t : List (GKey × ℚ)) (k : GKey) :
    keyTotal ((k0, s) :: t) k = (if k0 = k then s else 0) + keyTotal t k := by
  by_cases h : k0 = k <;> simp [keyTotal, List.filter_cons, h]

lemma keyTotal_addToGroups (g : List (GKey × ℚ)) (k : GKey) (d : ℚ) (k' : GKey) :
    keyTotal (addToGroups g k d) k' = keyTotal g k' + (if k' = k then d else 0) := by
  induction g with
  | nil =>
    simp only [addToGroups, keyTotal_cons, keyTotal_nil, add_zero, zero_add]
    by_cases h : k' = k
    · subst h; simp
    · rw [if_neg (fun hh => h hh.symm), if_neg h]
  | cons p t ih =>
    obtain ⟨k0, s⟩ := p
    by_cases h0 : k0 = k
    · subst h0
      by_cases h' : k' = k0
      · subst h'; simp [addToGroups, keyTotal_cons]; ring
      · have h'' : ¬ k0 = k' := fun hh => h' hh.symm
        simp [addToGroups, keyTotal_cons, h', h'']
    · simp only [addToGroups, h0, if_false, keyTotal_cons, ih]
      ring

lemma mem_fst_addToGroups (g : List (GKey × ℚ)) (k : GKey) (d : ℚ) (k' : GKey) :
    k' ∈ (addToGroups g k d).map (fun p => p.1) ↔
      k' ∈ g.map (fun p => p.1) ∨ k' = k := by
  induction g with
  | nil => simp [addToGroups]
  | cons p t ih =>
    obtain ⟨k0, s⟩ := p
    by_cases h0 : k0 = k
    · subst h0; simp [addToGroups]; tauto
    · simp [addToGroups, h0, ih]; tauto

lemma nodup_fst_addToGroups (g : List (GKey × ℚ)) (k : GKey) (d : ℚ)
    (h : (g.map (fun p => p.1)).Nodup) :
    ((addToGroups g k d).map (fun p => p.1)).Nodup := by
  induction g with
  | nil => simp [addToGroups]
  | cons p t ih =>
    obtain ⟨k0, s⟩ := p
    rw [List.map_cons, List.nodup_cons] at h
    by_cases h0 : k0 = k
    · subst h0
      simpa [addToGroups] using h
    · simp only [addToGroups, h0, if_false, List.map_cons, List.nodup_cons]
      refine ⟨?_, ih h.2⟩
      rw [mem_fst_addToGroups]
      rintro (hc | hc)
      · exact h.1 hc
      · exact h0 hc

lemma keyTotal_foldl (rows : List ApptRow) :
    ∀ (g : List (GKey × ℚ)) (k : GKey),
      keyTotal (rows.foldl groupStep g) k =
        keyTotal g k +
          ((rows.filter fun r => decide ((r.location, r.date) = k)).map
            fun r => r.duration).sum := by
  induction rows with
  | nil => intro g k; simp
  | cons r t ih =>
    intro g k
    rw [List.foldl_cons, ih, groupStep, keyTotal_addToGroups]
    by_cases h : (r.location, r.date) = k
    · rw [if_pos h.symm]
      simp [List.filter_cons, h]
      ring
    · rw [if_neg (fun hh => h hh.symm)]
      simp [List.filter_cons, h]

lemma mem_fst_foldl (rows : List ApptRow) :
    ∀ (g : List (GKey × ℚ)) (k : GKey),
      k ∈ (rows.foldl groupStep g).map (fun p => p.1) ↔
        k ∈ g.map (fun p => p.1) ∨ ∃ r ∈ rows, (r.location, r.date) = k := by
  induction rows with
  | nil => intro g k; simp
  | cons r t ih =>
    intro g k
    rw [List.foldl_cons, ih, groupStep, mem_fst_addToGroups]
    simp only [List.mem_cons]
    constructor
    · rintro ((hg | hk) | ⟨r', hr', hk⟩)
      · exact Or.inl hg
      · exact Or.inr ⟨r, Or.inl rfl, hk.symm⟩
      · exact Or.inr ⟨r', Or.inr hr', hk⟩
    · rintro (hg | ⟨r', (rfl | hr'), hk⟩)
      · exact Or.inl (Or.inl hg)
      · exact Or.inl (Or.inr hk.symm)
      · exact Or.inr ⟨r', hr', hk⟩

lemma nodup_fst_foldl (rows : List ApptRow) :
    ∀ (g : List (GKey × ℚ)), (g.map (fun p => p.1)).Nodup →
      ((rows.foldl groupStep g).map (fun p => p.1)).Nodup := by
  induction rows with
  | nil => intro g h; simpa using h
  | cons r t ih =>
    intro g h
    rw [List.foldl_cons]
    exact ih _ (nodup_fst_addToGroups _ _ _ h)

lemma groupConsumed_keyTotal (rows : List ApptRow) (k : GKey) :
    keyTotal (groupConsumed rows) k =
      ((rows.filter fun r => decide ((r.location, r.date) = k)).map
        fun r => r.duration).sum := by
  simpa [keyTotal_nil] using keyTotal_foldl rows [] k

lemma groupConsumed_nodup (rows : List ApptRow) :
    ((groupConsumed rows).map (fun p => p.1)).Nodup :=
  nodup_fst_foldl rows [] (by simp)

lemma groupConsumed_mem_fst (rows : List ApptRow) (k : GKey) :
    k ∈ (groupConsumed rows).map (fun p => p.1) ↔
      ∃ r ∈ rows, (r.location, r.date) = k := by
  simpa using mem_fst_foldl rows [] k

lemma keyTotal_eq_zero (g : List (GKey × ℚ)) (k : GKey)
    (h : k ∉ g.map (fun p => p.1)) : keyTotal g k = 0 := by
  induction g with
  | nil => rfl
  | cons p t ih =>
    obtain ⟨k0, s⟩ := p
    rw [List.map_cons, List.mem_cons] at h
    push_neg at h
    rw [keyTotal_cons, if_neg (fun hh => h.1 hh.symm), zero_add]
    exact ih h.2

lemma value_eq_keyTotal (g : List (GKey × ℚ))
    (hnd : (g.map (fun p => p.1)).Nodup) :
    ∀ kv ∈ g, kv.2 = keyTotal g kv.1 := by
  induction g with
  | nil => intro kv h; cases h
  | cons p t ih =>
    obtain ⟨k0, s⟩ := p
    rw [List.map_cons, List.nodup_cons] at hnd
    intro kv hkv
    rcases List.mem_cons.mp hkv with rfl | hkv
    · rw [keyTotal_cons, if_pos rfl, keyTotal_eq_zero t _ hnd.1, add_zero]
    · rw [keyTotal_cons]
      have hk : kv.1 ∈ t.map (fun p => p.1) := List.mem_map_of_mem _ hkv
      rw [if_neg (fun hh => hnd.1 (by rw [hh]; exact hk)), zero_add]
      exact ih hnd.2 kv hkv

/-! Lemmas about the utilization table. -/

lemma mem_util_iff (rows : List ApptRow) (u : UtilRow) :
    u ∈ calculate_utilization rows ↔
      ∃ kv ∈ groupConsumed rows, mkUtilRow rows kv = u := by
  simp [calculate_utilization, List.mem_map]

lemma util_exists_row (rows : List ApptRow) (u : UtilRow)
    (h : u ∈ calculate_utilization rows) :
    ∃ r ∈ rows, r.location = u.location ∧ r.date = u.date := by
  obtain ⟨kv, hkv, rfl⟩ := (mem_util_iff rows u).mp h
  have hmem : kv.1 ∈ (groupConsumed rows).map (fun p => p.1) :=
    List.mem_map_of_mem _ hkv
  obtain ⟨r, hr, hk⟩ := (groupConsumed_mem_fst rows kv.1).mp hmem
  exact ⟨r, hr, congrArg Prod.fst hk, congrArg Prod.snd hk⟩

lemma util_total (rows : List ApptRow) (u : UtilRow)
    (h : u ∈ calculate_utilization rows) :
    u.totalMinutes =
      ((rows.filter fun r => decide (r.location = u.location ∧ r.date = u.date)).map
        fun r => r.duration).sum := by
  obtain ⟨kv, hkv, rfl⟩ := (mem_util_iff rows u).mp h
  have hval : kv.2 = keyTotal (groupConsumed rows) kv.1 :=
    value_eq_keyTotal _ (groupConsumed_nodup rows) kv hkv
  have hfil : (rows.filter fun r => decide ((r.location, r.date) = kv.1)) =
      (rows.filter fun r =>
        decide (r.location = (mkUtilRow rows kv).location ∧
          r.date = (mkUtilRow rows kv).date)) := by
    apply List.filter_congr
    intro r _
    simp only [decide_eq_decide]
    show (r.location, r.date) = kv.1 ↔ r.location = kv.1.1 ∧ r.date = kv.1.2
    rw [Prod.ext_iff]
  have htot : (mkUtilRow rows kv).totalMinutes = kv.2 := rfl
  rw [htot, hval, groupConsumed_keyTotal, hfil]

lemma util_complete (rows : List ApptRow) (r : ApptRow) (h : r ∈ rows) :
    ∃ u ∈ calculate_utilization rows, u.location = r.location ∧ u.date = r.date := by
  have hmem : (r.location, r.date) ∈ (groupConsumed rows).map (fun p => p.1) :=
    (groupConsumed_mem_fst rows _).mpr ⟨r, h, rfl⟩
  obtain ⟨kv, hkv, hk⟩ := List.mem_map.mp hmem
  refine ⟨mkUtilRow rows kv, (mem_util_iff rows _).mpr ⟨kv, hkv, rfl⟩, ?_, ?_⟩
  · exact congrArg Prod.fst hk
  · exact congrArg Prod.snd hk

/-! Lemmas about the capacity dictionary. -/

lemma lookupCap_map_self (l : List String) (f : String → ℚ) (loc : String)
    (h : loc ∈ l) : lookupCap (l.map fun x => (x, f x)) loc = some (f loc) := by
  induction l with
  | nil => cases h
  | cons a t ih =>
    by_cases ha : a = loc
    · subst ha; simp [lookupCap]
    · rcases List.mem_cons.mp h with rfl | hm
      · exact absurd rfl ha
      · simp only [List.map_cons, lookupCap, if_neg ha]
        exact ih hm

lemma util_available (rows : List ApptRow) (u : UtilRow)
    (h : u ∈ calculate_utilization rows) :
    u.availableMinutes =
      ((locationChairs rows u.location * CLINIC_HOURS * MINUTES_PER_HOUR : ℕ) : ℚ) := by
  obtain ⟨r, hr, hloc, _⟩ := util_exists_row rows u h
  obtain ⟨kv, hkv, rfl⟩ := (mem_util_iff rows u).mp h
  have hmem : kv.1.1 ∈ (rows.map fun r => r.location).dedup := by
    rw [List.mem_dedup]
    have hl : r.location = kv.1.1 := hloc
    rw [← hl]
    exact List.mem_map_of_mem _ hr
  show (lookupCap (calculate_capacity rows) kv.1.1).getD 0 = _
  rw [calculate_capacity,
    lookupCap_map_self _ (fun loc => ((locationChairs rows loc * CLINIC_HOURS * MINUTES_PER_HOUR : ℕ) : ℚ))
      _ hmem]
  rfl

lemma locationChairs_pos (rows : List ApptRow) (loc : String)
    (h : ∃ r ∈ rows, r.location = loc) : 1 ≤ locationChairs rows loc := by
  obtain ⟨r, hr, hloc⟩ := h
  have hmem : r.chairId ∈
      ((rows.filter fun r => decide (r.location = loc)).map fun r => r.chairId).dedup := by
    rw [List.mem_dedup]
    exact List.mem_map_of_mem _ (List.mem_filter.mpr ⟨hr, by simp [hloc]⟩)
  have := List.length_pos.mpr (List.ne_nil_of_mem hmem)
  simpa [locationChairs] using this

lemma util_available_pos (rows : List ApptRow) (u : UtilRow)
    (h : u ∈ calculate_utilization rows) : 0 < u.availableMinutes := by
  obtain ⟨r, hr, hloc, _⟩ := util_exists_row rows u h
  rw [util_available rows u h]
  have h1 : 1 ≤ locationChairs rows u.location := locationChairs_pos rows _ ⟨r, hr, hloc⟩
  have hpos : 0 < locationChairs rows u.location * CLINIC_HOURS * MINUTES_PER_HOUR := by
    have h9 : CLINIC_HOURS = 9 := rfl
    have h60 : MINUTES_PER_HOUR = 60 := rfl
    rw [h9, h60]
    omega
  exact Nat.cast_pos.mpr hpos

/-! Lemmas about the ranking step. -/

instance : IsTotal Slot1 slotLe1 := ⟨fun a b => le_total (sortKey1 a) (sortKey1 b)⟩

instance : IsTrans Slot1 slotLe1 := ⟨fun _ _ _ hab hbc => le_trans hab hbc⟩

instance : IsTotal Slot2 slotLe2 := ⟨fun a b => le_total (sortKey2 a) (sortKey2 b)⟩

instance : IsTrans Slot2 slotLe2 := ⟨fun _ _ _ hab hbc => le_trans hab hbc⟩

lemma getOptimalTimes1_def (rows : List ApptRow) (loc : String) (dur : ℚ)
    (today : Int) (isHoliday : Int → Bool) :
    getOptimalTimes1 rows loc dur today isHoliday =
      if (qualifiedDays1 rows loc dur today isHoliday).isEmpty
      then { slots := [], noCapacity := true }
      else { slots := (List.insertionSort slotLe1
              ((qualifiedDays1 rows loc dur today isHoliday).map mkSlot1)).take 3,
             noCapacity := false } := rfl

lemma getOptimalTimes2_def (rows : List ApptRow) (loc : String) (dur : ℚ)
    (today : Int) (isHoliday : Int → Bool) :
    getOptimalTimes2 rows loc dur today isHoliday =
      if (qualifiedDays2 rows loc dur today isHoliday).isEmpty
      then { slots := [], noCapacity := true }
      else { slots := (List.insertionSort slotLe2
              ((qualifiedDays2 rows loc dur today isHoliday).map mkSlot2)).take 3,
             noCapacity := false } := rfl

lemma mem_qual1_iff (rows : List ApptRow) (loc : String) (dur : ℚ) (today : Int)
    (isHoliday : Int → Bool) (u : UtilRow) :
    u ∈ qualifiedDays1 rows loc dur today isHoliday ↔
      u ∈ calculate_utilization rows ∧ u.location = loc ∧
        u.date ≥ today + OPTIMIZATION_WINDOW_DAYS ∧ isHoliday u.date = false ∧
        u.remainingMinutes ≥ dur := by
  simp [qualifiedDays1, List.mem_filter, and_assoc]

lemma mem_qual2_iff (rows : List ApptRow) (loc : String) (dur : ℚ) (today : Int)
    (isHoliday : Int → Bool) (u : UtilRow) :
    u ∈ qualifiedDays2 rows loc dur today isHoliday ↔
      u ∈ calculate_utilization rows ∧ u.location = loc ∧
        u.date ≥ today ∧ isHoliday u.date = false ∧
        u.remainingMinutes ≥ dur := by
  simp [qualifiedDays2, List.mem_filter, and_assoc]

lemma mem_slots1 (rows : List ApptRow) (loc : String) (dur : ℚ) (today : Int)
    (isHoliday : Int → Bool) (s : Slot1)
    (h : s ∈ (getOptimalTimes1 rows loc dur today isHoliday).slots) :
    ∃ u ∈ qualifiedDays1 rows loc dur today isHoliday, s = mkSlot1 u := by
  rw [getOptimalTimes1_def] at h
  by_cases he : (qualifiedDays1 rows loc dur today isHoliday).isEmpty
  · rw [if_pos he] at h; cases h
  · rw [if_neg he] at h
    have h1 : s ∈ List.insertionSort slotLe1
        ((qualifiedDays1 rows loc dur today isHoliday).map mkSlot1) :=
      List.take_subset 3 _ h
    have h2 : s ∈ (qualifiedDays1 rows loc dur today isHoliday).map mkSlot1 :=
      (List.mem_insertionSort slotLe1).mp h1
    obtain ⟨u, hu, hs⟩ := List.mem_map.mp h2
    exact ⟨u, hu, hs.symm⟩

lemma mem_slots2 (rows : List ApptRow) (loc : String) (dur : ℚ) (today : Int)
    (isHoliday : Int → Bool) (s : Slot2)
    (h : s ∈ (getOptimalTimes2 rows loc dur today isHoliday).slots) :
    ∃ u ∈ qualifiedDays2 rows loc dur today isHoliday, s = mkSlot2 u := by
  rw [getOptimalTimes2_def] at h
  by_cases he : (qualifiedDays2 rows loc dur today isHoliday).isEmpty
  · rw [if_pos he] at h; cases h
  · rw [if_neg he] at h
    have h1 : s ∈ List.insertionSort slotLe2
        ((qualifiedDays2 rows loc dur today isHoliday).map mkSlot2) :=
      List.take_subset 3 _ h
    have h2 : s ∈ (qualifiedDays2 rows loc dur today isHoliday).map mkSlot2 :=
      (List.mem_insertionSort slotLe2).mp h1
    obtain ⟨u, hu, hs⟩ := List.mem_map.mp h2
    exact ⟨u, hu, hs.symm⟩

lemma util_keys_nodup (rows : List ApptRow) :
    ((calculate_utilization rows).map fun u => (u.location, u.date)).Nodup := by
  have heq : ((calculate_utilization rows).map fun u => (u.location, u.date)) =
      (groupConsumed rows).map (fun p => p.1) := by
    rw [calculate_utilization, List.map_map]
    rfl
  rw [heq]
  exact groupConsumed_nodup rows

/-- Dates are pairwise distinct among the utilization rows of one location
that survive a ranking filter. -/
lemma qual_dates_nodup (rows : List ApptRow) (loc : String) (p : UtilRow → Bool)
    (hp : ∀ u, p u = true → u.location = loc) :
    (((calculate_utilization rows).filter p).map fun u => u.date).Nodup := by
  have h1 : (calculate_utilization rows).Pairwise
      (fun u v => (u.location, u.date) ≠ (v.location, v.date)) :=
    (List.pairwise_map).mp (util_keys_nodup rows)
  have h2 : ((calculate_utilization rows).filter p).Pairwise
      (fun u v => (u.location, u.date) ≠ (v.location, v.date)) := h1.filter p
  rw [List.Nodup, List.pairwise_map]
  refine List.Pairwise.imp_of_mem ?_ h2
  intro a b ha hb hne hdate
  have hpa := hp a (List.mem_filter.mp ha).2
  have hpb := hp b (List.mem_filter.mp hb).2
  exact hne (by rw [hpa, hpb, hdate])

/-- Generic shape of both ranking variants: taking a prefix of an
insertion-sorted slot list whose primary keys (the dates) are pairwise
distinct yields a list strictly ascending by date. -/
lemma sorted_take_dates {β : Type} (le : β → β → Prop) [DecidableRel le]
    [IsTotal β le] [IsTrans β le] (dateOf : β → Int)
    (hdlt : ∀ a b, le a b → dateOf a ≠ dateOf b → dateOf a < dateOf b)
    (l : List β) (hnd : (l.map dateOf).Nodup) (n : ℕ) :
    ((List.insertionSort le l).take n).Pairwise (fun a b => dateOf a < dateOf b) := by
  have hsorted : (List.insertionSort le l).Pairwise le :=
    List.sorted_insertionSort le l
  have hne : (List.insertionSort le l).Pairwise (fun a b => dateOf a ≠ dateOf b) := by
    refine ((List.perm_insertionSort le l).pairwise_iff ?_).mpr ?_
    · intro x y h; exact h.symm
    · exact (List.pairwise_map).mp hnd
  have hlt : (List.insertionSort le l).Pairwise (fun a b => dateOf a < dateOf b) :=
    (hsorted.and hne).imp fun hab => hdlt _ _ hab.1 hab.2
  exact List.Pairwise.sublist (List.take_sublist n _) hlt

lemma slotLe1_date_lt (a b : Slot1) (hle : slotLe1 a b) (hne : a.date ≠ b.date) :
    a.date < b.date := by
  have h := hle
  rw [slotLe1, sortKey1, sortKey1] at h
  rcases (Prod.Lex.le_iff _ _).mp h with hlt | ⟨heq, _⟩
  · exact hlt
  · exact absurd heq hne

lemma slotLe2_date_lt (a b : Slot2) (hle : slotLe2 a b) (hne : a.date ≠ b.date) :
    a.date < b.date := by
  have h := hle
  rw [slotLe2, sortKey2, sortKey2] at h
  rcases (Prod.Lex.le_iff _ _).mp h with hlt | ⟨heq, _⟩
  · exact hlt
  · exact absurd heq hne

lemma slots1_dates_sorted (rows : List ApptRow) (loc : String) (dur : ℚ)
    (today : Int) (isHoliday : Int → Bool) :
    ((getOptimalTimes1 rows loc dur today isHoliday).slots).Pairwise
      (fun a b => a.date < b.date) := by
  rw [getOptimalTimes1_def]
  by_cases he : (qualifiedDays1 rows loc dur today isHoliday).isEmpty
  · rw [if_pos he]; exact List.Pairwise.nil
  · rw [if_neg he]
    refine sorted_take_dates slotLe1 (fun s => s.date) slotLe1_date_lt _ ?_ 3
    have : ((qualifiedDays1 rows loc dur today isHoliday).map mkSlot1).map
        (fun s => s.date) = (qualifiedDays1 rows loc dur today isHoliday).map
        (fun u => u.date) := by
      rw [List.map_map]; rfl
    rw [this]
    refine qual_dates_nodup rows loc _ ?_
    intro u hu
    exact (of_decide_eq_true hu).1

lemma slots2_dates_sorted (rows : List ApptRow) (loc : String) (dur : ℚ)
    (today : Int) (isHoliday : Int → Bool) :
    ((getOptimalTimes2 rows loc dur today isHoliday).slots).Pairwise
      (fun a b => a.date < b.date) := by
  rw [getOptimalTimes2_def]
  by_cases he : (qualifiedDays2 rows loc dur today isHoliday).isEmpty
  · rw [if_pos he]; exact List.Pairwise.nil
  · rw [if_neg he]
    refine sorted_take_dates slotLe2 (fun s => s.date) slotLe2_date_lt _ ?_ 3
    have : ((qualifiedDays2 rows loc dur today isHoliday).map mkSlot2).map
        (fun s => s.date) = (qualifiedDays2 rows loc dur today isHoliday).map
        (fun u => u.date) := by
      rw [List.map_map]; rfl
    rw [this]
    refine qual_dates_nodup rows loc _ ?_
    intro u hu
    exact (of_decide_eq_true hu).1

lemma slots1_len (rows : List ApptRow) (loc : String) (dur : ℚ) (today : Int)
    (isHoliday : Int → Bool) :
    (getOptimalTimes1 rows loc dur today isHoliday).slots.length ≤ 3 := by
  rw [getOptimalTimes1_def]
  split
  · simp
  · simp only [List.length_take]
    omega

lemma slots2_len (rows : List ApptRow) (loc : String) (dur : ℚ) (today : Int)
    (isHoliday : Int → Bool) :
    (getOptimalTimes2 rows loc dur today isHoliday).slots.length ≤ 3 := by
  rw [getOptimalTimes2_def]
  split
  · simp
  · simp only [List.length_take]
    omega

/-! Arithmetic facts about the projected next-available time. -/

lemma timeOfDay_eq_self (t : ℚ) (h0 : 0 ≤ t) (h1 : t < 1440) :
    timeOfDay t = t := by
  rw [timeOfDay]
  have hfl : Int.floor (t / 1440) = 0 := by
    rw [Int.floor_eq_zero_iff, Set.mem_Ico]
    constructor
    · positivity
    · rw [div_lt_one (by norm_num)]
      exact h1
  rw [hfl]
  norm_num

/-- With a nonnegative utilization ratio the projected instant stays inside
the day, the 24-hour wrap of `.time()` is the identity, and the clip at ratio
1 followed by the close comparison realizes exactly the
`min(closing, opening + ratio × 540)` clamp.  (A negative enough ratio rolls
the instant before midnight; the source then compares the previous day's
clock time with closing, which this equation does not describe.) -/
lemma mkSlot1_nextAvail (u : UtilRow)
    (h0 : 0 ≤ u.totalMinutes / u.availableMinutes) :
    (mkSlot1 u).nextAvailMin =
      min CLINIC_END_MIN
        (CLINIC_START_MIN +
          u.totalMinutes / u.availableMinutes * ((CLINIC_HOURS * 60 : ℕ) : ℚ)) := by
  have hc : ((CLINIC_HOURS * 60 : ℕ) : ℚ) = 540 := by norm_num [CLINIC_HOURS]
  have hs : CLINIC_START_MIN = 480 := by norm_num [CLINIC_START_MIN]
  have hend : CLINIC_END_MIN = 1020 := by norm_num [CLINIC_END_MIN]
  show (if CLINIC_END_MIN < timeOfDay (CLINIC_START_MIN +
        min (u.totalMinutes / u.availableMinutes) 1 * ((CLINIC_HOURS * 60 : ℕ) : ℚ))
      then CLINIC_END_MIN
      else timeOfDay (CLINIC_START_MIN +
        min (u.totalMinutes / u.availableMinutes) 1 * ((CLINIC_HOURS * 60 : ℕ) : ℚ))) = _
  rw [hc, hs, hend]
  set x := u.totalMinutes / u.availableMinutes with hxdef
  have hclipLo : 0 ≤ min x 1 := le_min h0 zero_le_one
  have hclipHi : min x 1 ≤ 1 := min_le_right x 1
  have ht0 : (0 : ℚ) ≤ 480 + min x 1 * 540 := by nlinarith
  have ht1 : (480 : ℚ) + min x 1 * 540 < 1440 := by nlinarith
  rw [timeOfDay_eq_self _ ht0 ht1]
  rcases le_or_lt x 1 with hx | hx
  · rw [min_eq_left hx]
    have h1 : (480 : ℚ) + x * 540 ≤ 1020 := by nlinarith
    rw [if_neg (not_lt.mpr h1), min_eq_right h1]
  · rw [min_eq_right hx.le]
    have h1 : (1020 : ℚ) ≤ 480 + x * 540 := by nlinarith
    have h2 : (480 : ℚ) + 1 * 540 = 1020 := by norm_num
    rw [h2, if_neg (lt_irrefl (1020 : ℚ)), min_eq_left h1]

lemma sub_max_sub_zero (a t : ℚ) : a - max (a - t) 0 = min t a := by
  rcases le_total t a with h | h
  · rw [max_eq_left (by linarith), min_eq_left h]
    ring
  · rw [max_eq_right (by linarith), min_eq_right h]
    ring

lemma util_avail_sub_remaining (rows : List ApptRow) (u : UtilRow)
    (h : u ∈ calculate_utilization rows) :
    u.availableMinutes - u.remainingMinutes = min u.totalMinutes u.availableMinutes := by
  obtain ⟨kv, hkv, rfl⟩ := (mem_util_iff rows u).mp h
  exact sub_max_sub_zero _ _

/-- Emptiness of the ranking filter for a location with no normalized rows. -/
lemma qual_empty_of_no_rows (rows : List ApptRow) (loc : String)
    (p : UtilRow → Bool) (hp : ∀ u, p u = true → u.location = loc)
    (h : ∀ r ∈ rows, r.location ≠ loc) :
    (calculate_utilization rows).filter p = [] := by
  rw [List.filter_eq_nil_iff]
  intro u hu hpu
  obtain ⟨r, hr, hrl, _⟩ := util_exists_row rows u hu
  exact h r hr (hrl.trans (hp u hpu))

/-! Concrete scenarios used for the counterexamples and the evaluation
witnesses.  `dataA` is one location with one chair and two booked days;
`dataB` is one location with two chairs booked on one day; `dataC7` is the
spec's 2-chair example with 1000 consumed minutes. -/

def rowA1 : ApptRow :=
  { location := "A", chairId := 1, medName := "m", duration := 300, date := 100 }

def rowA2 : ApptRow :=
  { location := "A", chairId := 1, medName := "m", duration := 400, date := 101 }

def dataA : List ApptRow := [rowA1, rowA2]

def dataB : List ApptRow :=
  [{ location := "A", chairId := 1, medName := "m", duration := 300, date := 100 },
   { location := "A", chairId := 2, medName := "m", duration := 300, date := 100 }]

def dataC7 : List ApptRow :=
  [{ location := "A", chairId := 1, medName := "m", duration := 500, date := 200 },
   { location := "A", chairId := 2, medName := "m", duration := 500, date := 200 }]

/-- A location whose only surviving appointment has aggregate duration -540
minutes: the utilization ratio is -1, the projected instant 8:00 AM - 540 min
rolls to the previous day's 11:00 PM, and the source clamps that wrapped
clock time to 5:00 PM. -/
def dataNeg : List ApptRow :=
  [{ location := "A", chairId := 1, medName := "m", duration := -540, date := 100 }]

/-- The utilization row of `dataA` on day 100. -/
def utilA1 : UtilRow :=
  { location := "A", date := 100, totalMinutes := 300, availableMinutes := 540,
    remainingMinutes := 240 }

/-- The utilization row of `dataB` on day 100. -/
def utilB1 : UtilRow :=
  { location := "A", date := 100, totalMinutes := 600, availableMinutes := 1080,
    remainingMinutes := 480 }

/-- The utilization row of `dataC7` on day 200. -/
def utilC7 : UtilRow :=
  { location := "A", date := 200, totalMinutes := 1000, availableMinutes := 1080,
    remainingMinutes := 80 }

/-- The first ranked slot of `dataA` (day 100, projected 1:00 PM). -/
def slotA1 : Slot1 :=
  { date := 100, totalMinutes := 300, availableMinutes := 540,
    remainingMinutes := 240, nextAvailMin := 780, displayKey := (1, 0, true) }

/-- The second ranked slot of `dataA` (day 101, projected 2:40 PM). -/
def slotA2 : Slot1 :=
  { date := 101, totalMinutes := 400, availableMinutes := 540,
    remainingMinutes := 140, nextAvailMin := 880, displayKey := (2, 40, true) }

/-- The export output on `dataA`: both appointments stamped with day 100. -/
def outA : List RebalRow :=
  [{ appt := rowA1, assignedDate := 100, daysMoved := 0 },
   { appt := rowA2, assignedDate := 100, daysMoved := -1 }]

/-- A raw record whose end time precedes its start time by 10 minutes. -/
def rawNegRecord : RawRecord :=
  { location := some "A", chairId := some 1, medName := some "m",
    status := "Active", startTime := some (100 * 86400),
    endTime := some (100 * 86400 - 600) }

/-- A well-formed raw record: a 60-minute active appointment on day 40. -/
def rawOkRecord : RawRecord :=
  { location := some "A", chairId := some 1, medName := some "m",
    status := "Active", startTime := some (40 * 86400 + 28800),
    endTime := some (40 * 86400 + 28800 + 3600) }

/-- The normalized row `preprocess` produces from `rawOkRecord`. -/
def rowOk : ApptRow :=
  { location := "A", chairId := 1, medName := "m", duration := 60, date := 40 }

section ClaimTheorems

attribute [local semireducible] Rat.add Rat.mul Rat.inv Rat.sub

/-- C1 (amended): in variant 1, every day passing the ranking filter whose
aggregate consumed minutes are nonnegative gets the projected next-available
time `min(closing, opening + consumed/available × total business minutes)` —
the clip of the utilization ratio at 1 followed by the close comparison
realizes exactly this clamp — and a fully booked day (consumed = available)
has utilization ratio 1 and projected time equal to clinic close.  When the
aggregate consumed minutes are negative enough to roll the projected instant
before midnight, the source compares the previous day's wrapped clock time
with closing instead: on the -540-minute day the wrapped 11:00 PM exceeds
closing and is clamped to 5:00 PM (the third, computed conjunct).  In variant
2, the projected instant is the time-of-day of
`opening + min(consumed, available)` minutes, with no clamp at closing. -/
theorem claim1_projected_time (rows : List ApptRow) (loc : String) (dur : ℚ)
    (today : Int) (isHoliday : Int → Bool) :
    (∀ u ∈ qualifiedDays1 rows loc dur today isHoliday,
      (0 ≤ u.totalMinutes →
        (mkSlot1 u).nextAvailMin =
          min CLINIC_END_MIN
            (CLINIC_START_MIN +
              u.totalMinutes / u.availableMinutes * ((CLINIC_HOURS * 60 : ℕ) : ℚ))) ∧
      (u.totalMinutes = u.availableMinutes →
        u.totalMinutes / u.availableMinutes = 1 ∧
        (mkSlot1 u).nextAvailMin = CLINIC_END_MIN)) ∧
    (∀ u ∈ qualifiedDays2 rows loc dur today isHoliday,
      (mkSlot2 u).timeMin =
        timeOfDay (CLINIC_START_MIN + min u.totalMinutes u.availableMinutes)) ∧
    ((getOptimalTimes1 dataNeg "A" 60 0 noHolidays).slots.map fun s =>
      s.nextAvailMin) = [CLINIC_END_MIN] := by
  refine ⟨?_, ?_, by decide⟩
  · intro u hu
    have hmem : u ∈ calculate_utilization rows :=
      ((mem_qual1_iff rows loc dur today isHoliday u).mp hu).1
    have hpos : 0 < u.availableMinutes := util_available_pos rows u hmem
    constructor
    · intro h0
      exact mkSlot1_nextAvail u (div_nonneg h0 hpos.le)
    · intro hfull
      have hdiv : u.totalMinutes / u.availableMinutes = 1 := by
        rw [hfull]
        exact div_self (ne_of_gt hpos)
      refine ⟨hdiv, ?_⟩
      rw [mkSlot1_nextAvail u (by rw [hdiv]; norm_num), hdiv]
      norm_num [CLINIC_START_MIN, CLINIC_END_MIN, CLINIC_HOURS]
  · intro u hu
    have hmem : u ∈ calculate_utilization rows :=
      ((mem_qual2_iff rows loc dur today isHoliday u).mp hu).1
    show timeOfDay (CLINIC_START_MIN + (u.availableMinutes - u.remainingMinutes)) = _
    rw [util_avail_sub_remaining rows u hmem]

/-- C1 witness: the formulas evaluated on the concrete scenarios. -/
theorem claim1_projected_time_witness :
    (mkSlot1 utilA1).nextAvailMin =
      min CLINIC_END_MIN
        (CLINIC_START_MIN +
          utilA1.totalMinutes / utilA1.availableMinutes * ((CLINIC_HOURS * 60 : ℕ) : ℚ)) ∧
    (mkSlot2 utilB1).timeMin =
      timeOfDay (CLINIC_START_MIN + min utilB1.totalMinutes utilB1.availableMinutes) :=
  ⟨((claim1_projected_time dataA "A" 60 0 noHolidays).1 utilA1 (by decide)).1
     (by decide),
   (claim1_projected_time dataB "A" 60 0 noHolidays).2.1 utilB1 (by decide)⟩

/-- C1 counterexample: on a two-chair day with 600 consumed of 1080 available
minutes, variant 2 offers the day with projected time 1080 minutes (6:00 PM),
which differs from the claimed `min(closing, opening + ratio × 540)` (which
would be 780 = 1:00 PM) and lies past closing time. -/
theorem claim1_counterexample :
    ((getOptimalTimes2 dataB "A" 60 0 noHolidays).slots.map fun s => s.timeMin) =
      [1080] ∧
    ((getOptimalTimes2 dataB "A" 60 0 noHolidays).slots.map fun s =>
      (s.totalMinutes, s.availableMinutes)) = [(600, 1080)] ∧
    ¬ ((1080 : ℚ) =
        min CLINIC_END_MIN
          (CLINIC_START_MIN + 600 / 1080 * ((CLINIC_HOURS * 60 : ℕ) : ℚ))) ∧
    CLINIC_END_MIN < 1080 := by
  refine ⟨by decide, by decide, by decide, by decide⟩

/-- C2: for every normalized input, location and duration, both variants
return their slots ordered ascending by date and, among slots of equal date
(none exist, since the aggregation keys one row per location and date),
ascending by projected next-available time. -/
theorem claim2_slots_sorted (rows : List ApptRow) (loc : String) (dur : ℚ)
    (today : Int) (isHoliday : Int → Bool) :
    ((getOptimalTimes1 rows loc dur today isHoliday).slots).Pairwise
      (fun a b => a.date < b.date ∨
        (a.date = b.date ∧ a.nextAvailMin ≤ b.nextAvailMin)) ∧
    ((getOptimalTimes2 rows loc dur today isHoliday).slots).Pairwise
      (fun a b => a.date < b.date ∨
        (a.date = b.date ∧ a.timeMin ≤ b.timeMin)) := by
  constructor
  · exact (slots1_dates_sorted rows loc dur today isHoliday).imp fun h => Or.inl h
  · exact (slots2_dates_sorted rows loc dur today isHoliday).imp fun h => Or.inl h

/-- C3: both variants return at most 3 slots, and every returned slot's day
has remaining minutes at least the requested duration. -/
theorem claim3_count_capacity (rows : List ApptRow) (loc : String) (dur : ℚ)
    (today : Int) (isHoliday : Int → Bool) :
    ((getOptimalTimes1 rows loc dur today isHoliday).slots.length ≤ 3 ∧
      ∀ s ∈ (getOptimalTimes1 rows loc dur today isHoliday).slots,
        dur ≤ s.remainingMinutes) ∧
    ((getOptimalTimes2 rows loc dur today isHoliday).slots.length ≤ 3 ∧
      ∀ s ∈ (getOptimalTimes2 rows loc dur today isHoliday).slots,
        dur ≤ s.remainingMinutes) := by
  refine ⟨⟨slots1_len rows loc dur today isHoliday, ?_⟩,
    ⟨slots2_len rows loc dur today isHoliday, ?_⟩⟩
  · intro s hs
    obtain ⟨u, hu, rfl⟩ := mem_slots1 rows loc dur today isHoliday s hs
    exact ((mem_qual1_iff rows loc dur today isHoliday u).mp hu).2.2.2.2
  · intro s hs
    obtain ⟨u, hu, rfl⟩ := mem_slots2 rows loc dur today isHoliday s hs
    exact ((mem_qual2_iff rows loc dur today isHoliday u).mp hu).2.2.2.2

/-- C3 witness: on `dataA` at most 3 slots come back and the first slot keeps
at least the requested 60 minutes. -/
theorem claim3_count_capacity_witness :
    (getOptimalTimes1 dataA "A" 60 0 noHolidays).slots.length ≤ 3 ∧
    (60 : ℚ) ≤ slotA1.remainingMinutes :=
  ⟨(claim3_count_capacity dataA "A" 60 0 noHolidays).1.1,
   (claim3_count_capacity dataA "A" 60 0 noHolidays).1.2 slotA1 (by decide)⟩

/-- C4 (amended): every row of the normalizer's output stems from a raw
record with status Complete or Active and fully populated fields (in
particular both timestamps present — missing durations are dropped), and its
service date lies at or after the configured cutoff and on no holiday.  The
duration, however, is `(end - start)/60` and may be negative: nothing drops a
record whose end time precedes its start time. -/
theorem claim4_normalizer_invariants (rs : List RawRecord) (cutoff : Int)
    (isHoliday : Int → Bool) :
    ∀ row ∈ preprocess cutoff isHoliday rs,
      (∃ r ∈ rs, (r.status = "Complete" ∨ r.status = "Active") ∧
        r.location = some row.location ∧ r.chairId = some row.chairId ∧
        r.medName = some row.medName ∧
        ∃ s e, r.startTime = some s ∧ r.endTime = some e ∧
          row.duration = ((e : ℚ) - (s : ℚ)) / 60 ∧
          row.date = Int.fdiv s SECONDS_PER_DAY) ∧
      cutoff ≤ row.date ∧ isHoliday row.date = false := by
  intro row h
  obtain ⟨r, hr, hpr⟩ := List.mem_filterMap.mp h
  rw [preprocessRecord] at hpr
  by_cases hst : (r.status = "Complete" ∨ r.status = "Active")
  · rw [if_pos hst] at hpr
    rcases hs : r.startTime with _ | s <;> rw [hs] at hpr <;>
      rcases he : r.endTime with _ | e <;> rw [he] at hpr <;>
      rcases hl : r.location with _ | loc <;> rw [hl] at hpr <;>
      rcases hc : r.chairId with _ | ch <;> rw [hc] at hpr <;>
      rcases hm : r.medName with _ | med <;> rw [hm] at hpr <;>
      try exact Option.noConfusion hpr
    change (if Int.fdiv s SECONDS_PER_DAY ≥ cutoff ∧
          isHoliday (Int.fdiv s SECONDS_PER_DAY) = false then
        some { location := loc, chairId := ch, medName := med,
               duration := ((e : ℚ) - (s : ℚ)) / 60,
               date := Int.fdiv s SECONDS_PER_DAY }
      else none) = some row at hpr
    by_cases hw : (Int.fdiv s SECONDS_PER_DAY ≥ cutoff ∧
        isHoliday (Int.fdiv s SECONDS_PER_DAY) = false)
    · rw [if_pos hw] at hpr
      have hrow := Option.some.inj hpr
      refine ⟨⟨r, hr, hst, ?_, ?_, ?_, s, e, hs, he, ?_, ?_⟩, ?_, ?_⟩
      · rw [hl, ← hrow]
      · rw [hc, ← hrow]
      · rw [hm, ← hrow]
      · rw [← hrow]
      · rw [← hrow]
      · rw [← hrow]; exact hw.1
      · rw [← hrow]; exact hw.2
    · rw [if_neg hw] at hpr
      exact Option.noConfusion hpr
  · rw [if_neg hst] at hpr
    exact Option.noConfusion hpr

/-- C4 witness: the invariants evaluated on a well-formed raw record with
cutoff 30. -/
theorem claim4_normalizer_invariants_witness :
    (30 : Int) ≤ rowOk.date ∧ noHolidays rowOk.date = false :=
  (claim4_normalizer_invariants [rawOkRecord] 30 noHolidays rowOk (by decide)).2

/-- C4 counterexample: a raw record whose end time lies 10 minutes before its
start time survives normalization with duration -10; the normalizer does not
drop negative durations. -/
theorem claim4_counterexample :
    (preprocess 0 noHolidays [rawNegRecord]).map (fun r => r.duration) = [-10] ∧
    ¬ (∀ row ∈ preprocess 0 noHolidays [rawNegRecord], 0 ≤ row.duration) :=
  ⟨by decide, by decide⟩

/-- C5 (amended): whenever the export runs on a non-empty optimized table, it
stamps every appointment with the FIRST ranked day's date: that day receives
the sum of all appointment durations (without any capacity check), and every
other day — including the claimed overflow day at the end of the ranked
list — receives zero assigned minutes. -/
theorem claim5_export_assigns_first (rows : List ApptRow) (s : Slot1)
    (rest : List Slot1) (out : List RebalRow)
    (h : export_rebalanced_assigned rows (s :: rest) = some out) :
    (∀ x ∈ out, x.assignedDate = s.date ∧ x.daysMoved = s.date - x.appt.date) ∧
    (∀ d : Int, d ≠ s.date → assignedTotal out d = 0) ∧
    assignedTotal out s.date = (rows.map fun r => r.duration).sum := by
  have hout : out = rows.map fun r =>
      ({ appt := r, assignedDate := s.date, daysMoved := s.date - r.date } :
        RebalRow) := by
    have hdef : export_rebalanced_assigned rows (s :: rest) =
        some (rows.map fun r =>
          ({ appt := r, assignedDate := s.date, daysMoved := s.date - r.date } :
            RebalRow)) := rfl
    rw [hdef] at h
    exact (Option.some.inj h).symm
  subst hout
  refine ⟨?_, ?_, ?_⟩
  · intro x hx
    obtain ⟨r, hr, rfl⟩ := List.mem_map.mp hx
    exact ⟨rfl, rfl⟩
  · intro d hd
    rw [assignedTotal]
    have hnil : (rows.map fun r =>
        ({ appt := r, assignedDate := s.date, daysMoved := s.date - r.date } :
          RebalRow)).filter (fun x => decide (x.assignedDate = d)) = [] := by
      rw [List.filter_eq_nil_iff]
      intro x hx
      obtain ⟨r, hr, rfl⟩ := List.mem_map.mp hx
      simp only [decide_eq_true_eq]
      exact fun hh => hd hh.symm
    rw [hnil]
    rfl
  · rw [assignedTotal]
    have hall : (rows.map fun r =>
        ({ appt := r, assignedDate := s.date, daysMoved := s.date - r.date } :
          RebalRow)).filter (fun x => decide (x.assignedDate = s.date)) =
        rows.map fun r =>
          ({ appt := r, assignedDate := s.date, daysMoved := s.date - r.date } :
            RebalRow) := by
      rw [List.filter_eq_self]
      intro x hx
      obtain ⟨r, hr, rfl⟩ := List.mem_map.mp hx
      simp
    rw [hall, List.map_map]
    rfl

/-- C5 witness: on the concrete export output, any day other than the first
ranked day receives zero minutes, and the first receives the full 700. -/
theorem claim5_export_assigns_first_witness :
    assignedTotal outA 999 = 0 ∧
    assignedTotal outA slotA1.date = (dataA.map fun r => r.duration).sum := by
  have h := claim5_export_assigns_first dataA slotA1 [slotA2] outA (by decide)
  exact ⟨h.2.1 999 (by decide), h.2.2⟩

/-- C5 counterexample: on `dataA` the ranking returns days 100 and 101 with
240 and 140 remaining minutes; the export then assigns all 700 minutes of
appointments to day 100 — the first ranked day, not the last — exceeding its
240 remaining minutes. -/
theorem claim5_counterexample :
    ((getOptimalTimes1 dataA "A" 60 0 noHolidays).slots.map fun s =>
      (s.date, s.remainingMinutes)) = [(100, 240), (101, 140)] ∧
    export_rebalanced_assigned dataA
      (getOptimalTimes1 dataA "A" 60 0 noHolidays).slots = some outA ∧
    assignedTotal outA 100 = 700 ∧
    ¬ (assignedTotal outA 100 ≤ 240) := by
  refine ⟨by decide, by decide, by decide, by decide⟩

/-- C6: in every utilization row, remaining minutes equal
`max(0, available - consumed)` and are never negative. -/
theorem claim6_remaining_nonneg (rows : List ApptRow) :
    ∀ u ∈ calculate_utilization rows,
      u.remainingMinutes = max 0 (u.availableMinutes - u.totalMinutes) ∧
      0 ≤ u.remainingMinutes := by
  intro u h
  obtain ⟨kv, hkv, rfl⟩ := (mem_util_iff rows u).mp h
  constructor
  · exact max_comm _ _
  · exact le_max_right _ _

/-- C6 witness: the clamp evaluated on a concrete utilization row. -/
theorem claim6_remaining_nonneg_witness :
    utilA1.remainingMinutes = max 0 (utilA1.availableMinutes - utilA1.totalMinutes) ∧
    0 ≤ utilA1.remainingMinutes :=
  claim6_remaining_nonneg dataA utilA1 (by decide)

/-- C7: available minutes of every utilization row equal the count of
distinct chairs of its location times the per-chair daily capacity (so the
value is date-independent); concretely, 2 distinct chairs give 1080 available
minutes on the example day, 1000 consumed leaves 80 remaining, and a request
for 100 minutes excludes the date. -/
theorem claim7_capacity_per_location :
    (∀ (rows : List ApptRow), ∀ u ∈ calculate_utilization rows,
      u.availableMinutes =
        ((locationChairs rows u.location * CLINIC_HOURS * MINUTES_PER_HOUR : ℕ) : ℚ)) ∧
    locationChairs dataC7 "A" = 2 ∧
    ((calculate_utilization dataC7).map fun u =>
      (u.location, u.date, u.availableMinutes, u.remainingMinutes)) =
        [("A", 200, 1080, 80)] ∧
    (getOptimalTimes1 dataC7 "A" 100 0 noHolidays).slots = [] := by
  exact ⟨util_available, by decide, by decide, by decide⟩

/-- C7 witness: the scaled capacity evaluated on the 2-chair scenario. -/
theorem claim7_capacity_per_location_witness :
    utilC7.availableMinutes =
      ((locationChairs dataC7 utilC7.location * CLINIC_HOURS * MINUTES_PER_HOUR : ℕ) : ℚ) :=
  claim7_capacity_per_location.1 dataC7 utilC7 (by decide)

/-- C8: the consumed minutes of every utilization row equal the sum of the
durations of exactly the normalized rows matching its (location, date) key,
and every normalized row is represented by a matching utilization row. -/
theorem claim8_consumed_sum (rows : List ApptRow) :
    (∀ u ∈ calculate_utilization rows,
      u.totalMinutes =
        ((rows.filter fun r =>
          decide (r.location = u.location ∧ r.date = u.date)).map
            fun r => r.duration).sum) ∧
    (∀ r ∈ rows, ∃ u ∈ calculate_utilization rows,
      u.location = r.location ∧ u.date = r.date) :=
  ⟨util_total rows, util_complete rows⟩

/-- C8 witness: the aggregation evaluated on a concrete key. -/
theorem claim8_consumed_sum_witness :
    utilA1.totalMinutes =
      ((dataA.filter fun r =>
        decide (r.location = utilA1.location ∧ r.date = utilA1.date)).map
          fun r => r.duration).sum :=
  (claim8_consumed_sum dataA).1 utilA1 (by decide)

/-- C9: whenever no day qualifies for the requested duration — every
utilization day of the location inside the window and off holidays has
remaining minutes below the duration — each ranking variant returns the empty
slot list together with the no-capacity warning signal; in particular this
happens when the normalized input holds no row for the location at all.  The
embedding is a total function, mirroring that the source path raises no
exception. -/
theorem claim9_empty_no_capacity (rows : List ApptRow) (loc : String) (dur : ℚ)
    (today : Int) (isHoliday : Int → Bool) :
    ((∀ u ∈ calculate_utilization rows, u.location = loc →
        today + OPTIMIZATION_WINDOW_DAYS ≤ u.date → isHoliday u.date = false →
        u.remainingMinutes < dur) →
      getOptimalTimes1 rows loc dur today isHoliday =
        { slots := [], noCapacity := true }) ∧
    ((∀ u ∈ calculate_utilization rows, u.location = loc →
        today ≤ u.date → isHoliday u.date = false →
        u.remainingMinutes < dur) →
      getOptimalTimes2 rows loc dur today isHoliday =
        { slots := [], noCapacity := true }) ∧
    ((∀ r ∈ rows, r.location ≠ loc) →
      getOptimalTimes1 rows loc dur today isHoliday =
        { slots := [], noCapacity := true } ∧
      getOptimalTimes2 rows loc dur today isHoliday =
        { slots := [], noCapacity := true }) := by
  refine ⟨?_, ?_, ?_⟩
  · intro h
    have h1 : qualifiedDays1 rows loc dur today isHoliday = [] := by
      rw [qualifiedDays1, List.filter_eq_nil_iff]
      intro u hu hdec
      have hd := of_decide_eq_true hdec
      exact absurd hd.2.2.2
        (not_le.mpr (h u hu hd.1 hd.2.1 hd.2.2.1))
    rw [getOptimalTimes1_def, h1]
    simp
  · intro h
    have h2 : qualifiedDays2 rows loc dur today isHoliday = [] := by
      rw [qualifiedDays2, List.filter_eq_nil_iff]
      intro u hu hdec
      have hd := of_decide_eq_true hdec
      exact absurd hd.2.2.2
        (not_le.mpr (h u hu hd.1 hd.2.1 hd.2.2.1))
    rw [getOptimalTimes2_def, h2]
    simp
  · intro h
    have h1 : qualifiedDays1 rows loc dur today isHoliday = [] := by
      rw [qualifiedDays1]
      exact qual_empty_of_no_rows rows loc _
        (fun u hu => (of_decide_eq_true hu).1) h
    have h2 : qualifiedDays2 rows loc dur today isHoliday = [] := by
      rw [qualifiedDays2]
      exact qual_empty_of_no_rows rows loc _
        (fun u hu => (of_decide_eq_true hu).1) h
    rw [getOptimalTimes1_def, getOptimalTimes2_def, h1, h2]
    simp

/-- C9 witness: on the 2-chair scenario every day of the location exists but
keeps only 80 remaining minutes, so a request for 100 minutes finds no
qualifying day and both variants return the empty result with the signal. -/
theorem claim9_empty_no_capacity_witness :
    getOptimalTimes1 dataC7 "A" 100 0 noHolidays =
      { slots := [], noCapacity := true } ∧
    getOptimalTimes2 dataC7 "A" 100 0 noHolidays =
      { slots := [], noCapacity := true } :=
  ⟨(claim9_empty_no_capacity dataC7 "A" 100 0 noHolidays).1 (by decide),
   (claim9_empty_no_capacity dataC7 "A" 100 0 noHolidays).2.1 (by decide)⟩

/-- C10: every slot either variant returns falls on a date that already
carries at least one normalized appointment of the requested location; a day
with no booked appointment yields no aggregation row and is never offered. -/
theorem claim10_slots_on_booked_days (rows : List ApptRow) (loc : String)
    (dur : ℚ) (today : Int) (isHoliday : Int → Bool) :
    (∀ s ∈ (getOptimalTimes1 rows loc dur today isHoliday).slots,
      ∃ r ∈ rows, r.location = loc ∧ r.date = s.date) ∧
    (∀ s ∈ (getOptimalTimes2 rows loc dur today isHoliday).slots,
      ∃ r ∈ rows, r.location = loc ∧ r.date = s.date) := by
  constructor
  · intro s hs
    obtain ⟨u, hu, rfl⟩ := mem_slots1 rows loc dur today isHoliday s hs
    have hq := (mem_qual1_iff rows loc dur today isHoliday u).mp hu
    obtain ⟨r, hr, hrl, hrd⟩ := util_exists_row rows u hq.1
    exact ⟨r, hr, hrl.trans hq.2.1, hrd⟩
  · intro s hs
    obtain ⟨u, hu, rfl⟩ := mem_slots2 rows loc dur today isHoliday s hs
    have hq := (mem_qual2_iff rows loc dur today isHoliday u).mp hu
    obtain ⟨r, hr, hrl, hrd⟩ := util_exists_row rows u hq.1
    exact ⟨r, hr, hrl.trans hq.2.1, hrd⟩

/-- C10 witness: the first slot on `dataA` falls on an already-booked day. -/
theorem claim10_slots_on_booked_days_witness :
    ∃ r ∈ dataA, r.location = "A" ∧ r.date = slotA1.date :=
  (claim10_slots_on_booked_days dataA "A" 60 0 noHolidays).1 slotA1 (by decide)

end ClaimTheorems

end ApptOpt
